import Mathlib

/-!
Shallow embedding of `src/main.ts` of the `temp-file` repository
(temp-entry lifecycle manager), together with proofs settling the
spec claims.

Conventions of the embedding:
* JS numbers used as counters are `Nat` (they only grow by `+1`).
* JS strings are Lean `String`; `Number.prototype.toString(36)` is
  `toString36` below (digits `0-9a-z`, most significant first, `0 ↦ "0"`).
* Promises are modelled by their observable outcome: `Except FsErr Unit`
  (resolved / rejected); a still-pending memoized promise is identified by
  a numeric id (`BaseDirResult.pending`).
* The `fs-extra` collaborator is an oracle (`FsOracle`) whose results are
  arbitrary; disposer callbacks are referenced by a numeric id resolved
  through the oracle.
* Filesystem side effects are recorded as an explicit event trace.
-/

namespace TempFile

/-- One base-36 digit character, as produced by JS `Number.toString(36)`:
`0-9` then `a-z`. -/
def digitChar36 (d : Nat) : Char :=
  if d < 10 then Char.ofNat (48 + d) else Char.ofNat (87 + d)

/-- Models JS `n.toString(36)` for a natural number: base-36 digits, most
significant first; `0` prints as `"0"`. -/
def toString36 (n : Nat) : String :=
  if n = 0 then String.mk [digitChar36 0]
  else String.mk (((Nat.digits 36 n).map digitChar36).reverse)

/-- The `"-"` separator used throughout the generated names. -/
def dashS : String := String.mk [Char.ofNat 45]

/-- Everything of `s` after the last `'-'` (all of `s` when there is none). -/
def afterLastDash (s : String) : String :=
  String.mk ((s.data.reverse.takeWhile fun c => c != '-').reverse)

/-- Models `tempDirPrefix` of the source (`main.ts:9`): the per-process fingerprint
`pid.toString(36) + "-" + Date.now().toString(36)`, with the process id and
start timestamp as parameters. -/
def tempDirTag (pid ts : Nat) : String :=
  toString36 pid ++ dashS ++ toString36 ts

/-- The string returned by `getTempName` (`main.ts:11-13`) when invoked with
optional caller `prefix` `pre` while the shared counter `tmpFileCounter`
holds `c`: `(prefix == null ? "" : prefix + "-") + tempDirPrefix + "-" +
counter.toString(36)`. -/
def mkTempName (pid ts : Nat) (pre : Option String) (c : Nat) : String :=
  (match pre with
   | none => String.mk []
   | some p => p ++ dashS) ++ tempDirTag pid ts ++ dashS ++ toString36 c

/-- A maximal run of `getTempName` calls: the list of strings returned when
the calls are made with the given prefixes in order, the shared counter
`tmpFileCounter` starting at `c` and incremented once per call
(`(tmpFileCounter++).toString(36)` in `main.ts:12`). -/
def runGetTempNames (pid ts : Nat) : List (Option String) → Nat → List String
  | [], _ => []
  | p :: rest, c => mkTempName pid ts p c :: runGetTempNames pid ts rest (c + 1)

/-- A filesystem error as surfaced by `fs-extra`; only the `code` field is
inspected by the source (`handleError`, `main.ts:74-79`). -/
structure FsErr where
  code : String
deriving DecidableEq

/-- One recorded temp entry (`TempFileInfo`, `main.ts:81-85`). The optional
custom disposer is referenced by a numeric id, resolved through the
`FsOracle`. -/
structure TempFileInfo where
  isDir : Bool
  path : String
  disposer : Option Nat
deriving DecidableEq

/-- The per-manager fields of class `TmpDir` (`main.ts:94-96`). -/
structure ManagerState where
  tempFiles : List TempFileInfo
  registered : Bool
deriving DecidableEq

/-- The module-level mutable state of `main.ts` (lines 5, 6, 15, 16),
plus two bookkeeping fields of the embedding: `nextPromiseId` hands out
identities for freshly created promises and `mkdtempCalls` counts how many
times the `mkdtemp` collaborator has been invoked. The registry
`tmpDirManagers` (a JS `Set` of `TmpDir` objects) is a duplicate-free list
of manager ids. -/
structure GlobalState where
  tmpFileCounter : Nat
  tmpDirManagers : List Nat
  tempDirPromise : Option Nat
  tempBaseDir : Option String
  nextPromiseId : Nat
  mkdtempCalls : Nat
deriving DecidableEq

/-- Outcomes of the `fs-extra` collaborator and of custom disposers:
each call either resolves or rejects with an error. The oracle is
arbitrary, so theorems quantifying over it cover every disk behavior. -/
structure FsOracle where
  removeRec : String → Except FsErr Unit
  unlinkFile : String → Except FsErr Unit
  disposerRun : Nat → String → Except FsErr Unit

/-- Observable side effects of cleanup, in invocation order. -/
inductive Event where
  | disposerInvoked (id : Nat) (path : String)
  | removedDir (path : String)
  | unlinked (path : String)
  | removedBase (dir : String)
  | warned (path : String)
deriving DecidableEq

/-- Embeds `handleError` (`main.ts:74-79`): warn on the console unless the error
code is `EPERM` or `ENOENT`; never throws. -/
def handleError (e : FsErr) (file : String) : List Event :=
  if e.code ≠ String.mk ['E', 'P', 'E', 'R', 'M'] ∧
      e.code ≠ String.mk ['E', 'N', 'O', 'E', 'N', 'T'] then
    [Event.warned file]
  else []

/-- What a caller of `getBaseTempDir` receives: either the (pending or
already fulfilled) memoized promise, identified by its id, or a fresh
`Promise.resolve(tempBaseDir)` built from the cached path. Two callers
holding `pending i` with the same `i` hold the identical promise and
therefore observe the identical resolved path. -/
inductive BaseDirResult where
  | pending (id : Nat)
  | cachedDir (dir : String)
deriving DecidableEq

/-- Embeds `getBaseTempDir` (`main.ts:18-39`): return the memoized promise if one
exists; else return `Promise.resolve(tempBaseDir)` if the path is cached;
else call `mkdtemp` (counted in `mkdtempCalls`), store the new promise and
return it. -/
def getBaseTempDir (g : GlobalState) : BaseDirResult × GlobalState :=
  match g.tempDirPromise with
  | some p => (BaseDirResult.pending p, g)
  | none =>
    match g.tempBaseDir with
    | some d => (BaseDirResult.cachedDir d, g)
    | none =>
      (BaseDirResult.pending g.nextPromiseId,
       { g with
          tempDirPromise := some g.nextPromiseId
          nextPromiseId := g.nextPromiseId + 1
          mkdtempCalls := g.mkdtempCalls + 1 })

/-- Completion of the `mkdtemp(...).then(...)` chain (`main.ts:30-37`):
once the directory is created and canonicalized, the resolved path is
cached in `tempBaseDir` (the promise cell keeps the now-fulfilled
promise). -/
def resolveBaseDir (g : GlobalState) (dir : String) : GlobalState :=
  { g with tempBaseDir := some dir }

/-- Embeds `nullize` (`main.ts:206-208`): the empty string collapses to `null`. -/
def nullize (s : Option String) : Option String :=
  match s with
  | none => none
  | some v => if v.length = 0 then none else some v

/-- The options object of `getTempFile` (`main.ts:87-92`); `pre`/`suf`
model the `prefix`/`suffix` fields. -/
structure GetTempFileOptions where
  pre : Option String
  suf : Option String
  disposer : Option Nat
deriving DecidableEq

/-- Models `options == null ? null : options.prefix` (`main.ts:123`). -/
def optPre (o : Option GetTempFileOptions) : Option String :=
  match o with
  | none => none
  | some o => o.pre

/-- Models `options == null ? null : options.suffix` (`main.ts:124`). -/
def optSuf (o : Option GetTempFileOptions) : Option String :=
  match o with
  | none => none
  | some o => o.suf

/-- Models `options == null ? null : options.disposer` (`main.ts:131`). -/
def optDisposer (o : Option GetTempFileOptions) : Option Nat :=
  match o with
  | none => none
  | some o => o.disposer

/-- Models `path.sep`, fixed to the POSIX separator. -/
def pathSep : String := String.mk [Char.ofNat 47]

/-- Models `suffix.startsWith(".")` (`main.ts:126`): for the one-character pattern
`"."` this is exactly "the first character is a dot". -/
def startsWithDot (s : String) : Bool :=
  match s.data with
  | [] => false
  | c :: _ => c == Char.ofNat 46

/-- The continuation of `getTempFile` (`main.ts:117-134`) run once the base
directory has resolved to `baseTempDir`: register the manager on first use,
compose the path, record the entry, bump the shared counter, and return the
composed path. -/
def getTempFileStep (o : Option GetTempFileOptions) (isDir : Bool)
    (selfId : Nat) (ms : ManagerState) (g : GlobalState)
    (baseTempDir : String) : String × ManagerState × GlobalState :=
  let msg : ManagerState × GlobalState :=
    if ms.registered then (ms, g)
    else ({ ms with registered := true },
          { g with tmpDirManagers :=
              if selfId ∈ g.tmpDirManagers then g.tmpDirManagers
              else selfId :: g.tmpDirManagers })
  let pre := nullize (optPre o)
  let suf := nullize (optSuf o)
  let namePre := match pre with
    | none => String.mk []
    | some p => p ++ dashS
  let nameSuf := match suf with
    | none => String.mk []
    | some s => if startsWithDot s then s else dashS ++ s
  let result := baseTempDir ++ pathSep ++ namePre
      ++ toString36 msg.2.tmpFileCounter ++ nameSuf
  (result,
   { msg.1 with tempFiles := msg.1.tempFiles ++ [⟨isDir, result, optDisposer o⟩] },
   { msg.2 with tmpFileCounter := msg.2.tmpFileCounter + 1 })

/-- Models `tmpDirManagers.delete(this)` (`main.ts:139`, `main.ts:170`). -/
def removeManager (selfId : Nat) (g : GlobalState) : GlobalState :=
  { g with tmpDirManagers := g.tmpDirManagers.filter (fun m => m != selfId) }

/-- One element of the `tempFiles.map(...)` fan-out of `cleanup`
(`main.ts:189-198`): a custom disposer is returned as-is (note: without a
`.catch`), while default removal (`remove` for directories, `unlink` for
files) has its rejection caught and routed to `handleError`. Yields the
events of the element and the outcome of the element's promise. -/
def asyncEntry (fs : FsOracle) (e : TempFileInfo) :
    List Event × Except FsErr Unit :=
  match e.disposer with
  | some d => ([Event.disposerInvoked d e.path], fs.disposerRun d e.path)
  | none =>
    let ev := if e.isDir then Event.removedDir e.path else Event.unlinked e.path
    match (if e.isDir then fs.removeRec e.path else fs.unlinkFile e.path) with
    | Except.ok _ => ([ev], Except.ok ())
    | Except.error err => (ev :: handleError err e.path, Except.ok ())

/-- Models `Promise.all`: resolves when every element resolves, rejects (with a
rejecting element's reason) as soon as any element rejects. All elements
have already been started by the time the aggregate is formed. -/
def promiseAll : List (Except FsErr Unit) → Except FsErr Unit
  | [] => Except.ok ()
  | Except.ok _ :: rest => promiseAll rest
  | Except.error e :: _ => Except.error e

/-- The outcome of `TmpDir.cleanup` (`main.ts:168-199`): resulting manager
state, resulting module state, the event trace, and whether the returned
promise resolves or rejects. -/
structure CleanupResult where
  self : ManagerState
  global : GlobalState
  events : List Event
  outcome : Except FsErr Unit

/-- Embeds `TmpDir.cleanup` (`main.ts:168-199`), line by line: snapshot
`tempFiles`; delete the manager from the registry; clear `registered`;
return a resolved promise if there are no entries; clear the entry list;
if the registry is now empty, reset the memoized resolver state and return
`remove(tempBaseDir)` (skipping per-entry disposal); otherwise fan out
per-entry disposal and return the `Promise.all` aggregate. -/
def cleanup (fs : FsOracle) (selfId : Nat) (ms : ManagerState)
    (g : GlobalState) : CleanupResult :=
  let tempFiles := ms.tempFiles
  let g1 := removeManager selfId g
  let ms1 := { ms with registered := false }
  if tempFiles.isEmpty then
    ⟨ms1, g1, [], Except.ok ()⟩
  else
    let ms2 := { ms1 with tempFiles := [] }
    if g1.tmpDirManagers.isEmpty then
      match g1.tempBaseDir with
      | none => ⟨ms2, g1, [], Except.ok ()⟩
      | some dir =>
        ⟨ms2, { g1 with tempBaseDir := none, tempDirPromise := none },
         [Event.removedBase dir], fs.removeRec dir⟩
    else
      let rs := tempFiles.map (asyncEntry fs)
      ⟨ms2, g1, (rs.map Prod.fst).flatten, promiseAll (rs.map Prod.snd)⟩

/-- One iteration of the `cleanupSync` loop body (`main.ts:147-165`): a
custom disposer is invoked fire-and-forget (its eventual result is
ignored, and being a `Promise`-returning function it cannot throw
synchronously); default removal is wrapped in `try/catch` with
`handleError`. The `Except` layer records whether the step throws. -/
def syncEntry (fs : FsOracle) (e : TempFileInfo) : Except FsErr (List Event) :=
  match e.disposer with
  | some d => Except.ok [Event.disposerInvoked d e.path]
  | none =>
    let ev := if e.isDir then Event.removedDir e.path else Event.unlinked e.path
    match (if e.isDir then fs.removeRec e.path else fs.unlinkFile e.path) with
    | Except.ok _ => Except.ok [ev]
    | Except.error err => Except.ok (ev :: handleError err e.path)

/-- The `for (const file of tempFiles)` loop of `cleanupSync`
(`main.ts:147-165`), entries processed in recorded order; an uncaught
throw in a step would abort the remaining iterations. -/
def syncLoop (fs : FsOracle) : List TempFileInfo → Except FsErr (List Event)
  | [] => Except.ok []
  | e :: rest => do
      let ev ← syncEntry fs e
      let evs ← syncLoop fs rest
      Except.ok (ev ++ evs)

/-- Embeds `TmpDir.cleanupSync` (`main.ts:137-166`): delete the manager from the
registry, clear `registered`, return if there are no entries, else clear
the entry list and dispose each entry in order. An `Except.error` result
would mean `cleanupSync` threw. -/
def cleanupSync (fs : FsOracle) (selfId : Nat) (ms : ManagerState)
    (g : GlobalState) : Except FsErr (ManagerState × GlobalState × List Event) :=
  let g1 := removeManager selfId g
  let ms1 := { ms with registered := false }
  if ms.tempFiles.isEmpty then
    Except.ok (ms1, g1, [])
  else do
    let evs ← syncLoop fs ms.tempFiles
    Except.ok ({ ms1 with tempFiles := [] }, g1, evs)

/-- Iterates `n` back-to-back calls to `getBaseTempDir` (no resolution completes in
between — exactly the situation of concurrent first-time requesters under
the single-threaded scheduling). Returns what each caller received and the
final state. -/
def baseDirCalls : Nat → GlobalState → List BaseDirResult × GlobalState
  | 0, g => ([], g)
  | n + 1, g =>
    let rg := getBaseTempDir g
    let rest := baseDirCalls n rg.2
    (rg.1 :: rest.1, rest.2)

/-- The first observable action disposing entry `e`: its custom disposer
call when one is set, else the appropriate removal primitive. -/
def disposalStart (e : TempFileInfo) : Event :=
  match e.disposer with
  | some d => Event.disposerInvoked d e.path
  | none => if e.isDir then Event.removedDir e.path else Event.unlinked e.path

/-- A concrete oracle whose operations all succeed. -/
def fsAllOk : FsOracle :=
  FsOracle.mk (fun _ => Except.ok ()) (fun _ => Except.ok ())
    (fun _ _ => Except.ok ())

/-- A concrete oracle whose custom disposers all reject with `EIO`. -/
def fsDisposerFails : FsOracle :=
  FsOracle.mk (fun _ => Except.ok ()) (fun _ => Except.ok ())
    (fun _ _ => Except.error (FsErr.mk (String.mk ['E', 'I', 'O'])))

/-- A concrete oracle whose removal primitives all reject with `EIO`. -/
def fsRemovalFails : FsOracle :=
  FsOracle.mk (fun _ => Except.error (FsErr.mk (String.mk ['E', 'I', 'O'])))
    (fun _ => Except.error (FsErr.mk (String.mk ['E', 'I', 'O'])))
    (fun _ _ => Except.ok ())

/-- A one-entry manager whose entry has custom disposer id 7. -/
def msDisposer : ManagerState :=
  ManagerState.mk [TempFileInfo.mk false (String.mk ['p']) (some 7)] true

/-- A one-entry manager whose entry is a plain file (no disposer). -/
def msPlainFile : ManagerState :=
  ManagerState.mk [TempFileInfo.mk false (String.mk ['p']) none] true

/-- A module state in which manager 0 is the sole registry member and the
base directory has resolved. -/
def gSole : GlobalState :=
  GlobalState.mk 1 [0] (some 3) (some (String.mk ['b'])) 4 1

/-- A module state in which manager 0 shares the registry with manager 5. -/
def gShared : GlobalState :=
  GlobalState.mk 1 [0, 5] (some 3) (some (String.mk ['b'])) 4 1

/-- Events of the asynchronous exit sequence: a manager's `cleanup()` call
beginning, that cleanup's promise settling, the shared base directory
removal, and the host callback. -/
inductive ExitEvent where
  | cStart (m : Nat)
  | cEnd (m : Nat)
  | removedBaseAtExit (dir : String)
  | callbackInvoked
deriving DecidableEq

/-- The event trace of the asynchronous exit path (`main.ts:60-70`):
`Promise.all(managers.map(it => it.cleanup()))` invokes every snapshotted
manager's `cleanup()` synchronously inside the `map`, so every cleanup has
begun (and issued its removal work) before any completion can be observed;
the completions settle afterwards (canonically listed in snapshot order —
only their being after all starts matters below), then
`.then(() => remove(dir))` removes the base directory, then
`.then(() => callback())` invokes the host callback. -/
def asyncExitTrace (managers : List Nat) (dir : String) : List ExitEvent :=
  managers.map ExitEvent.cStart ++ managers.map ExitEvent.cEnd
    ++ [ExitEvent.removedBaseAtExit dir, ExitEvent.callbackInvoked]

/-- Sequential drain, as the spec words it (managers drained strictly one at a time): no manager's cleanup
starts between another manager's start and its completion. -/
def SequentialDrain (tr : List ExitEvent) : Prop :=
  ∀ i j k a b, i < j → j < k →
    tr.get? i = some (ExitEvent.cStart a) →
    tr.get? j = some (ExitEvent.cStart b) →
    tr.get? k = some (ExitEvent.cEnd a) → b = a

lemma digitChar36_inj_fin : ∀ a b : Fin 36,
    digitChar36 a.val = digitChar36 b.val → a = b := by decide

lemma digitChar36_inj {a b : Nat} (ha : a < 36) (hb : b < 36)
    (h : digitChar36 a = digitChar36 b) : a = b := by
  have := digitChar36_inj_fin ⟨a, ha⟩ ⟨b, hb⟩ h
  exact congrArg Fin.val this

lemma digitChar36_ne_dash_fin : ∀ a : Fin 36, digitChar36 a.val ≠ '-' := by decide

lemma digitChar36_ne_dash {a : Nat} (ha : a < 36) : digitChar36 a ≠ '-' :=
  digitChar36_ne_dash_fin ⟨a, ha⟩

lemma map_digitChar36_inj : ∀ l1 l2 : List Nat,
    (∀ x ∈ l1, x < 36) → (∀ x ∈ l2, x < 36) →
    l1.map digitChar36 = l2.map digitChar36 → l1 = l2 := by
  intro l1
  induction l1 with
  | nil =>
    intro l2 _ _ h
    cases l2 with
    | nil => rfl
    | cons b l2 => simp at h
  | cons a l1 ih =>
    intro l2 h1 h2 h
    cases l2 with
    | nil => simp at h
    | cons b l2 =>
      simp only [List.map_cons, List.cons.injEq] at h
      have ha : a < 36 := h1 a (List.mem_cons_self _ _)
      have hb : b < 36 := h2 b (List.mem_cons_self _ _)
      have hab := digitChar36_inj ha hb h.1
      have htl := ih l2 (fun x hx => h1 x (List.mem_cons_of_mem _ hx))
        (fun x hx => h2 x (List.mem_cons_of_mem _ hx)) h.2
      rw [hab, htl]

lemma digits36_lt (n : Nat) : ∀ d ∈ Nat.digits 36 n, d < 36 := by
  intro d hd
  exact Nat.digits_lt_base (by norm_num) hd

lemma toString36_inj : ∀ {m n : Nat}, toString36 m = toString36 n → m = n := by
  intro m n h
  unfold toString36 at h
  by_cases hm : m = 0 <;> by_cases hn : n = 0
  · rw [hm, hn]
  · exfalso
    simp only [hm, if_pos rfl, if_neg hn] at h
    have hd : [digitChar36 0] = ((Nat.digits 36 n).map digitChar36).reverse :=
      congrArg String.data h
    have hlen : 1 = (Nat.digits 36 n).length := by
      have := congrArg List.length hd
      simpa using this
    obtain ⟨d, hddef⟩ := List.length_eq_one.mp hlen.symm
    rw [hddef] at hd
    simp only [List.map_cons, List.map_nil, List.reverse_cons, List.reverse_nil,
      List.nil_append, List.cons.injEq] at hd
    have hdlt : d < 36 := digits36_lt n d (by rw [hddef]; exact List.mem_cons_self _ _)
    have hd0 : d = 0 := (digitChar36_inj (by norm_num) hdlt hd.1).symm
    have hof := Nat.ofDigits_digits 36 n
    rw [hddef, hd0] at hof
    exact hn (by simpa [Nat.ofDigits] using hof.symm)
  · exfalso
    simp only [hn, if_pos rfl, if_neg hm] at h
    have hd : ((Nat.digits 36 m).map digitChar36).reverse = [digitChar36 0] :=
      congrArg String.data h
    have hlen : (Nat.digits 36 m).length = 1 := by
      have := congrArg List.length hd
      simpa using this
    obtain ⟨d, hddef⟩ := List.length_eq_one.mp hlen
    rw [hddef] at hd
    simp only [List.map_cons, List.map_nil, List.reverse_cons, List.reverse_nil,
      List.nil_append, List.cons.injEq] at hd
    have hdlt : d < 36 := digits36_lt m d (by rw [hddef]; exact List.mem_cons_self _ _)
    have hd0 : d = 0 := digitChar36_inj hdlt (by norm_num) hd.1
    have hm0 : m = 0 := by
      have hof := Nat.ofDigits_digits 36 m
      rw [hddef, hd0] at hof
      simpa [Nat.ofDigits] using hof.symm
    exact hm hm0
  · simp only [if_neg hm, if_neg hn] at h
    have hd : ((Nat.digits 36 m).map digitChar36).reverse
        = ((Nat.digits 36 n).map digitChar36).reverse :=
      congrArg String.data h
    have hmap := List.reverse_injective hd
    have := map_digitChar36_inj _ _ (digits36_lt m) (digits36_lt n) hmap
    calc m = Nat.ofDigits 36 (Nat.digits 36 m) := (Nat.ofDigits_digits 36 m).symm
    _ = Nat.ofDigits 36 (Nat.digits 36 n) := by rw [this]
    _ = n := Nat.ofDigits_digits 36 n

lemma toString36_no_dash (n : Nat) : ∀ c ∈ (toString36 n).data, c ≠ '-' := by
  intro c hc
  unfold toString36 at hc
  by_cases hn : n = 0
  · simp only [hn, if_pos rfl] at hc
    have : c = digitChar36 0 := by simpa using hc
    rw [this]
    exact digitChar36_ne_dash (by norm_num)
  · simp only [if_neg hn] at hc
    rw [List.mem_reverse] at hc
    obtain ⟨d, hd, hcd⟩ := List.mem_map.mp hc
    rw [← hcd]
    exact digitChar36_ne_dash (digits36_lt n d hd)

lemma strData_append (s t : String) : (s ++ t).data = s.data ++ t.data := by
  cases s
  cases t
  rfl

lemma strMk_data (s : String) : String.mk s.data = s := by
  cases s
  rfl

lemma str_append_assoc (a b c : String) : a ++ b ++ c = a ++ (b ++ c) := by
  have : (a ++ b ++ c).data = (a ++ (b ++ c)).data := by
    simp [strData_append]
  calc a ++ b ++ c = String.mk (a ++ b ++ c).data := (strMk_data _).symm
  _ = String.mk (a ++ (b ++ c)).data := by rw [this]
  _ = a ++ (b ++ c) := strMk_data _

lemma dashS_data : dashS.data = ['-'] := rfl

lemma takeWhile_append_of_all (p : Char → Bool) (l1 l2 : List Char)
    (h : ∀ c ∈ l1, p c = true) :
    (l1 ++ l2).takeWhile p = l1 ++ l2.takeWhile p := by
  induction l1 with
  | nil => simp
  | cons a l ih =>
    have ha : p a = true := h a (List.mem_cons_self _ _)
    simp only [List.cons_append, List.takeWhile_cons, ha, if_true]
    rw [ih fun c hc => h c (List.mem_cons_of_mem _ hc)]

lemma afterLastDash_append_dash (A t : String)
    (ht : ∀ c ∈ t.data, c ≠ '-') : afterLastDash (A ++ dashS ++ t) = t := by
  unfold afterLastDash
  have hdata : (A ++ dashS ++ t).data = A.data ++ '-' :: t.data := by
    rw [strData_append, strData_append, dashS_data]
    simp
  rw [hdata]
  have hrev : (A.data ++ '-' :: t.data).reverse
      = t.data.reverse ++ '-' :: A.data.reverse := by
    simp [List.reverse_append]
  rw [hrev]
  have hall : ∀ c ∈ t.data.reverse, (c != '-') = true := by
    intro c hc
    rw [List.mem_reverse] at hc
    simpa using ht c hc
  rw [takeWhile_append_of_all _ _ _ hall]
  have : (('-' :: A.data.reverse).takeWhile fun c => c != '-') = [] := by
    simp [List.takeWhile_cons]
  rw [this, List.append_nil, List.reverse_reverse]

lemma mkTempName_counter_inj {pid ts c1 c2 : Nat} {p q : Option String}
    (h : mkTempName pid ts p c1 = mkTempName pid ts q c2) : c1 = c2 := by
  unfold mkTempName at h
  have h1 := congrArg afterLastDash h
  rw [afterLastDash_append_dash _ _ (toString36_no_dash c1),
    afterLastDash_append_dash _ _ (toString36_no_dash c2)] at h1
  exact toString36_inj h1

lemma mem_runGetTempNames {pid ts : Nat} {l : List (Option String)} {c : Nat}
    {s : String} (h : s ∈ runGetTempNames pid ts l c) :
    ∃ p c2, c ≤ c2 ∧ s = mkTempName pid ts p c2 := by
  induction l generalizing c with
  | nil => simp [runGetTempNames] at h
  | cons p rest ih =>
    simp only [runGetTempNames, List.mem_cons] at h
    cases h with
    | inl h => exact ⟨p, c, le_refl c, h⟩
    | inr h =>
      obtain ⟨q, c2, hc2, hs⟩ := ih h
      exact ⟨q, c2, by omega, hs⟩

lemma runGetTempNames_nodup (pid ts : Nat) (pres : List (Option String))
    (c0 : Nat) : (runGetTempNames pid ts pres c0).Nodup := by
  induction pres generalizing c0 with
  | nil => exact List.nodup_nil
  | cons p rest ih =>
    refine List.Nodup.cons ?_ (ih (c0 + 1))
    intro hmem
    obtain ⟨q, c2, hc2, hs⟩ := mem_runGetTempNames hmem
    have : c0 = c2 := mkTempName_counter_inj hs
    omega

/-- C1: for every sequence of calls to `getTempName` within one process,
with any prefixes (including none), no two returned strings are equal.
First conjunct: an uninterrupted run of calls (the shared counter stepping
by one per call). Second conjunct: an arbitrary sequence of calls, each
observing the shared counter at a strictly larger value than the previous
one (which also covers runs interleaved with `getTempFile`, since that
only pushes the shared counter further up). The counter value is embedded
in base 36 after the final `"-"` of each name, so distinct counters force
distinct strings. -/
theorem c1_getTempName_unique (pid ts c0 : Nat) (pres : List (Option String))
    (calls : List (Option String × Nat)) :
    (runGetTempNames pid ts pres c0).Nodup
    ∧ (calls.Pairwise (fun a b => a.2 < b.2) →
        (calls.map fun pc => mkTempName pid ts pc.1 pc.2).Nodup) := by
  refine ⟨runGetTempNames_nodup pid ts pres c0, ?_⟩
  intro hmono
  induction calls with
  | nil => exact List.nodup_nil
  | cons pc rest ih =>
    rw [List.pairwise_cons] at hmono
    rw [List.map_cons]
    refine List.Nodup.cons ?_ (ih hmono.2)
    intro hmem
    obtain ⟨qc, hq, hs⟩ := List.mem_map.mp hmem
    have hlt : pc.2 < qc.2 := hmono.1 qc hq
    have : pc.2 = qc.2 := mkTempName_counter_inj hs.symm
    omega

/-- Witness for C1: a two-call uninterrupted run, and a two-call sequence
whose counter values jump from 0 to 3 (as after interleaved allocations),
both yield pairwise distinct names. -/
theorem c1_getTempName_unique_witness :
    (runGetTempNames 2 3 [none, some (String.mk ['a'])] 0).Nodup
    ∧ (([((none : Option String), 0), (some (String.mk ['a']), 3)].map
        fun pc => mkTempName 2 3 pc.1 pc.2).Nodup) :=
  ⟨(c1_getTempName_unique 2 3 0 [none, some (String.mk ['a'])]
      [((none : Option String), 0), (some (String.mk ['a']), 3)]).1,
   (c1_getTempName_unique 2 3 0 [none, some (String.mk ['a'])]
      [((none : Option String), 0), (some (String.mk ['a']), 3)]).2
     (by simp)⟩

lemma not_mem_removeManager (selfId : Nat) (g : GlobalState) :
    selfId ∉ (removeManager selfId g).tmpDirManagers := by
  intro h
  unfold removeManager at h
  simp at h

lemma syncLoop_isOk (fs : FsOracle) (l : List TempFileInfo) :
    ∃ evs, syncLoop fs l = Except.ok evs := by
  induction l with
  | nil => exact ⟨[], rfl⟩
  | cons e rest ih =>
    obtain ⟨evs, hevs⟩ := ih
    unfold syncLoop
    unfold syncEntry
    cases hd : e.disposer with
    | some d =>
      rw [hevs]
      exact ⟨_, rfl⟩
    | none =>
      cases hr : (if e.isDir then fs.removeRec e.path else fs.unlinkFile e.path) with
      | ok u => rw [hevs]; exact ⟨_, rfl⟩
      | error err => rw [hevs]; exact ⟨_, rfl⟩

lemma filter_ne_self {l : List Nat} {x : Nat} (h : x ∉ l) :
    l.filter (fun m => m != x) = l := by
  refine List.filter_eq_self.mpr ?_
  intro a ha
  simp only [bne_iff_ne, ne_eq, decide_eq_true_eq]
  intro hax
  exact h (hax ▸ ha)

lemma removeManager_noop {selfId : Nat} {g : GlobalState}
    (h : selfId ∉ g.tmpDirManagers) : removeManager selfId g = g := by
  unfold removeManager
  rw [filter_ne_self h]

lemma cleanup_post (fs : FsOracle) (selfId : Nat) (ms : ManagerState)
    (g : GlobalState) :
    selfId ∉ (cleanup fs selfId ms g).global.tmpDirManagers
    ∧ (cleanup fs selfId ms g).self.registered = false
    ∧ (cleanup fs selfId ms g).self.tempFiles = [] := by
  unfold cleanup
  by_cases h : ms.tempFiles.isEmpty
  · have hnil : ms.tempFiles = [] := by
      cases hl : ms.tempFiles with
      | nil => rfl
      | cons a l => rw [hl] at h; simp [List.isEmpty] at h
    simp only [h, if_true]
    refine ⟨not_mem_removeManager selfId g, ?_, ?_⟩
    · trivial
    · exact hnil
  · simp only [h, if_false]
    by_cases h2 : (removeManager selfId g).tmpDirManagers.isEmpty
    · simp only [h2, if_true]
      cases hb : (removeManager selfId g).tempBaseDir with
      | none =>
        refine ⟨not_mem_removeManager selfId g, ?_, ?_⟩ <;> trivial
      | some dir =>
        refine ⟨?_, ?_, ?_⟩
        · exact not_mem_removeManager selfId g
        · trivial
        · trivial
    · simp only [h2, if_false]
      refine ⟨not_mem_removeManager selfId g, ?_, ?_⟩ <;> trivial

lemma cleanupSync_post (fs : FsOracle) (selfId : Nat) (ms : ManagerState)
    (g : GlobalState) :
    ∃ ms2 g2 evs,
      cleanupSync fs selfId ms g = Except.ok (ms2, g2, evs)
      ∧ selfId ∉ g2.tmpDirManagers
      ∧ ms2.registered = false
      ∧ ms2.tempFiles = [] := by
  unfold cleanupSync
  by_cases h : ms.tempFiles.isEmpty
  · have hnil : ms.tempFiles = [] := by
      cases hl : ms.tempFiles with
      | nil => rfl
      | cons a l => rw [hl] at h; simp [List.isEmpty] at h
    simp only [h, if_true]
    exact ⟨_, _, _, rfl, not_mem_removeManager selfId g, rfl, hnil⟩
  · simp only [h, if_false]
    obtain ⟨evs, hevs⟩ := syncLoop_isOk fs ms.tempFiles
    rw [hevs]
    exact ⟨_, _, _, rfl, not_mem_removeManager selfId g, rfl, rfl⟩

/-- C5: for every manager and every outcome of the individual deletions
(the filesystem oracle is arbitrary, so this covers success and failure),
after `cleanup` and after `cleanupSync` the manager is not a member of the
process-wide registry, its `registered` flag is false, and its entry list
is empty (`cleanupSync` moreover returns normally). -/
theorem c5_deregistered_and_cleared (fs fs2 : FsOracle) (selfId : Nat)
    (ms : ManagerState) (g : GlobalState) :
    (selfId ∉ (cleanup fs selfId ms g).global.tmpDirManagers
      ∧ (cleanup fs selfId ms g).self.registered = false
      ∧ (cleanup fs selfId ms g).self.tempFiles = [])
    ∧ ∃ ms2 g2 evs,
        cleanupSync fs2 selfId ms g = Except.ok (ms2, g2, evs)
        ∧ selfId ∉ g2.tmpDirManagers
        ∧ ms2.registered = false
        ∧ ms2.tempFiles = [] :=
  ⟨cleanup_post fs selfId ms g, cleanupSync_post fs2 selfId ms g⟩

/-- C8: calling `cleanup` twice in a row with no allocations between the
calls makes the second call a no-op: the second call returns a resolved
promise, produces no events, and leaves both the manager state and the
entire module state (registry, base-directory cache, resolver cache,
counter) exactly as the first call left them. -/
theorem c8_cleanup_idempotent (fs fs2 : FsOracle) (selfId : Nat)
    (ms : ManagerState) (g : GlobalState) :
    cleanup fs2 selfId (cleanup fs selfId ms g).self (cleanup fs selfId ms g).global
      = ⟨(cleanup fs selfId ms g).self, (cleanup fs selfId ms g).global,
         [], Except.ok ()⟩ := by
  obtain ⟨hmem, hreg, htf⟩ := cleanup_post fs selfId ms g
  generalize hgen : cleanup fs selfId ms g = r at hmem hreg htf ⊢
  unfold cleanup
  simp only [htf, List.isEmpty_nil, if_true]
  rw [removeManager_noop hmem]
  have hself : r.self = ManagerState.mk [] false := by
    cases r0 : r.self with
    | mk tf rg =>
      rw [r0] at htf hreg
      have h1 : tf = [] := htf
      have h2 : rg = false := hreg
      rw [h1, h2]
  rw [hself]

lemma getBaseTempDir_of_promise {g : GlobalState} {p : Nat}
    (h : g.tempDirPromise = some p) :
    getBaseTempDir g = (BaseDirResult.pending p, g) := by
  unfold getBaseTempDir
  rw [h]

lemma baseDirCalls_of_promise {p : Nat} :
    ∀ (n : Nat) (g : GlobalState), g.tempDirPromise = some p →
    baseDirCalls n g = (List.replicate n (BaseDirResult.pending p), g) := by
  intro n
  induction n with
  | zero => intro g _; rfl
  | succ m ih =>
    intro g h
    unfold baseDirCalls
    rw [getBaseTempDir_of_promise h]
    dsimp only
    rw [ih g h]
    simp [List.replicate_succ]

/-- C6: (a) starting from the uninitialized resolver state, any positive
number of back-to-back calls to `getBaseTempDir` triggers exactly one
`mkdtemp` invocation, and every caller receives the identical promise
(hence the identical resolved path); (b) once a resolution is pending or
completed (the promise cell is occupied), any call returns that same
promise and changes nothing — in particular it starts no new filesystem
work. -/
theorem c6_resolver_memoized (g : GlobalState) (n p : Nat) :
    (g.tempDirPromise = none → g.tempBaseDir = none → 1 ≤ n →
      (baseDirCalls n g).2.mkdtempCalls = g.mkdtempCalls + 1
      ∧ ∀ r ∈ (baseDirCalls n g).1, r = BaseDirResult.pending g.nextPromiseId)
    ∧ (g.tempDirPromise = some p →
      getBaseTempDir g = (BaseDirResult.pending p, g)) := by
  constructor
  · intro h1 h2 hn
    obtain ⟨m, rfl⟩ : ∃ m, n = m + 1 := ⟨n - 1, by omega⟩
    have hfirst : getBaseTempDir g
        = (BaseDirResult.pending g.nextPromiseId,
           { g with
              tempDirPromise := some g.nextPromiseId
              nextPromiseId := g.nextPromiseId + 1
              mkdtempCalls := g.mkdtempCalls + 1 }) := by
      unfold getBaseTempDir
      rw [h1, h2]
    unfold baseDirCalls
    rw [hfirst]
    dsimp only
    rw [baseDirCalls_of_promise m _ rfl]
    constructor
    · rfl
    · intro r hr
      simp only [List.mem_cons] at hr
      cases hr with
      | inl h => exact h
      | inr h => exact (List.eq_of_mem_replicate h)
  · exact getBaseTempDir_of_promise

/-- Witness for C6 at a concrete state: the uninitialized resolver state,
three concurrent callers; and the pending state with promise id 5. -/
theorem c6_resolver_memoized_witness :
    ((baseDirCalls 3 (GlobalState.mk 0 [] none none 0 0)).2.mkdtempCalls
        = (GlobalState.mk 0 [] none none 0 0).mkdtempCalls + 1
      ∧ ∀ r ∈ (baseDirCalls 3 (GlobalState.mk 0 [] none none 0 0)).1,
          r = BaseDirResult.pending (GlobalState.mk 0 [] none none 0 0).nextPromiseId)
    ∧ getBaseTempDir (GlobalState.mk 0 [] (some 5) none 9 1)
        = (BaseDirResult.pending 5, GlobalState.mk 0 [] (some 5) none 9 1) :=
  ⟨(c6_resolver_memoized (GlobalState.mk 0 [] none none 0 0) 3 5).1
      rfl rfl (by omega),
   (c6_resolver_memoized (GlobalState.mk 0 [] (some 5) none 9 1) 3 5).2 rfl⟩

/-- C4: if manager `selfId` is the sole registry member when `cleanup` is
called and it has recorded entries (which is what a completed allocation
guarantees) and the base directory has resolved to `d`, then afterwards
the recursive removal of `d` has been issued (its outcome is exactly that
of `remove(d)`), both memoized resolver cells are reset, and a subsequent
`getBaseTempDir` call from any manager performs a fresh `mkdtemp` call and
hands out a brand-new promise instead of the removed path. -/
theorem c4_last_member_resets_base (fs : FsOracle) (selfId : Nat)
    (ms : ManagerState) (g : GlobalState) (d : String)
    (hsole : g.tmpDirManagers = [selfId])
    (halloc : ms.tempFiles ≠ [])
    (hbase : g.tempBaseDir = some d) :
    (cleanup fs selfId ms g).global.tempBaseDir = none
    ∧ (cleanup fs selfId ms g).global.tempDirPromise = none
    ∧ (cleanup fs selfId ms g).events = [Event.removedBase d]
    ∧ (cleanup fs selfId ms g).outcome = fs.removeRec d
    ∧ (getBaseTempDir (cleanup fs selfId ms g).global).1
        = BaseDirResult.pending g.nextPromiseId
    ∧ (getBaseTempDir (cleanup fs selfId ms g).global).2.mkdtempCalls
        = g.mkdtempCalls + 1 := by
  have hne : ms.tempFiles.isEmpty = false := by
    cases hl : ms.tempFiles with
    | nil => exact absurd hl halloc
    | cons a l => rfl
  simp [cleanup, removeManager, getBaseTempDir, hsole, hne, hbase]

/-- Witness for C4: one manager (id 0) holding one directory entry, sole
member of the registry, base directory resolved. -/
theorem c4_last_member_resets_base_witness :
    (cleanup (FsOracle.mk (fun _ => Except.ok ()) (fun _ => Except.ok ())
        (fun _ _ => Except.ok ())) 0
      (ManagerState.mk [TempFileInfo.mk true (String.mk ['p']) none] true)
      (GlobalState.mk 3 [0] (some 7) (some (String.mk ['b'])) 8 1)).global.tempBaseDir
      = none
    ∧ (cleanup (FsOracle.mk (fun _ => Except.ok ()) (fun _ => Except.ok ())
        (fun _ _ => Except.ok ())) 0
      (ManagerState.mk [TempFileInfo.mk true (String.mk ['p']) none] true)
      (GlobalState.mk 3 [0] (some 7) (some (String.mk ['b'])) 8 1)).events
      = [Event.removedBase (String.mk ['b'])] := by
  have h := c4_last_member_resets_base
    (FsOracle.mk (fun _ => Except.ok ()) (fun _ => Except.ok ())
      (fun _ _ => Except.ok ())) 0
    (ManagerState.mk [TempFileInfo.mk true (String.mk ['p']) none] true)
    (GlobalState.mk 3 [0] (some 7) (some (String.mk ['b'])) 8 1)
    (String.mk ['b']) rfl (by simp) rfl
  exact ⟨h.1, h.2.2.1⟩

lemma str_append_empty (s : String) : s ++ String.mk [] = s := by
  have h : (s ++ String.mk []).data = s.data := by
    rw [strData_append]
    simp
  calc s ++ String.mk [] = String.mk (s ++ String.mk []).data := (strMk_data _).symm
  _ = String.mk s.data := by rw [h]
  _ = s := strMk_data s

/-- C7: the path returned by `getTempFile` is the base directory joined
(with the path separator) with: the prefix followed by `"-"` when a
non-empty prefix is given, then the base-36 rendering of the shared
counter, then the suffix handling — a suffix starting with `"."` appended
directly with no `"-"` separator, any other non-empty suffix joined with
`"-"`. The two spec scenarios are instances: suffix `".log"` is appended
directly, suffix `"cache"` is joined as `"-cache"`. -/
theorem c7_path_composition (o : Option GetTempFileOptions) (isDir : Bool)
    (selfId : Nat) (ms : ManagerState) (g : GlobalState) (base : String) :
    ((getTempFileStep o isDir selfId ms g base).1
      = base ++ pathSep
        ++ (match nullize (optPre o) with
            | none => String.mk []
            | some p => p ++ dashS)
        ++ toString36 g.tmpFileCounter
        ++ (match nullize (optSuf o) with
            | none => String.mk []
            | some s => if startsWithDot s then s else dashS ++ s))
    ∧ (getTempFileStep
        (some (GetTempFileOptions.mk none
          (some (String.mk ['.', 'l', 'o', 'g'])) none))
        isDir selfId ms g base).1
      = base ++ pathSep ++ toString36 g.tmpFileCounter
          ++ String.mk ['.', 'l', 'o', 'g']
    ∧ (getTempFileStep
        (some (GetTempFileOptions.mk none
          (some (String.mk ['c', 'a', 'c', 'h', 'e'])) none))
        isDir selfId ms g base).1
      = base ++ pathSep ++ toString36 g.tmpFileCounter
          ++ (dashS ++ String.mk ['c', 'a', 'c', 'h', 'e']) := by
  refine ⟨?_, ?_, ?_⟩ <;>
    by_cases h : ms.registered <;>
      simp [getTempFileStep, nullize, optPre, optSuf, optDisposer,
        startsWithDot, str_append_empty, h] <;>
    rfl

/-- C10: a `prefix` or `suffix` equal to the empty string is treated
exactly like an absent option (`nullize`, `main.ts:206-208`): the returned
path is the one the same call would produce with the option omitted, at
the same counter value; an entirely empty options object behaves like no
options at all, and the composed path then has no dangling `"-"`. -/
theorem c10_empty_option_like_absent (sd pd : Option String)
    (disp : Option Nat) (isDir : Bool) (selfId : Nat) (ms : ManagerState)
    (g : GlobalState) (base : String) :
    ((getTempFileStep (some (GetTempFileOptions.mk (some (String.mk [])) sd disp))
        isDir selfId ms g base).1
      = (getTempFileStep (some (GetTempFileOptions.mk none sd disp))
        isDir selfId ms g base).1)
    ∧ ((getTempFileStep (some (GetTempFileOptions.mk pd (some (String.mk [])) disp))
        isDir selfId ms g base).1
      = (getTempFileStep (some (GetTempFileOptions.mk pd none disp))
        isDir selfId ms g base).1)
    ∧ ((getTempFileStep (some (GetTempFileOptions.mk none none disp))
        isDir selfId ms g base).1
      = (getTempFileStep none isDir selfId ms g base).1)
    ∧ (getTempFileStep
        (some (GetTempFileOptions.mk (some (String.mk [])) (some (String.mk [])) disp))
        isDir selfId ms g base).1
      = base ++ pathSep ++ toString36 g.tmpFileCounter := by
  refine ⟨?_, ?_, ?_, ?_⟩ <;>
    by_cases h : ms.registered <;>
      simp [getTempFileStep, nullize, optPre, optSuf, optDisposer,
        str_append_empty, h]

lemma handleError_no_disposal (err : FsErr) (q : String) :
    (∀ d p, Event.disposerInvoked d p ∉ handleError err q)
    ∧ (∀ p, Event.removedDir p ∉ handleError err q)
    ∧ (∀ p, Event.unlinked p ∉ handleError err q) := by
  unfold handleError
  split <;> simp

lemma count_handleError_disposer (err : FsErr) (q : String) (d : Nat)
    (p : String) : (handleError err q).count (Event.disposerInvoked d p) = 0 :=
  List.count_eq_zero.mpr ((handleError_no_disposal err q).1 d p)

lemma count_handleError_removedDir (err : FsErr) (q p : String) :
    (handleError err q).count (Event.removedDir p) = 0 :=
  List.count_eq_zero.mpr ((handleError_no_disposal err q).2.1 p)

lemma count_handleError_unlinked (err : FsErr) (q p : String) :
    (handleError err q).count (Event.unlinked p) = 0 :=
  List.count_eq_zero.mpr ((handleError_no_disposal err q).2.2 p)

lemma asyncEntry_count_disposer (fs : FsOracle) (e : TempFileInfo)
    (d : Nat) (p : String) :
    (asyncEntry fs e).1.count (Event.disposerInvoked d p)
      = if e.disposer == some d && e.path == p then 1 else 0 := by
  unfold asyncEntry
  cases hd : e.disposer with
  | some d2 =>
    by_cases h1 : d2 = d <;> by_cases h2 : e.path = p <;>
      simp [h1, h2, List.count_singleton, beq_iff_eq]
  | none =>
    cases hr : (if e.isDir then fs.removeRec e.path else fs.unlinkFile e.path) with
    | ok u =>
      by_cases hb : e.isDir <;> simp [hb]
    | error err =>
      by_cases hb : e.isDir <;>
        simp [hb, List.count_cons, count_handleError_disposer]

lemma asyncEntry_count_removedDir (fs : FsOracle) (e : TempFileInfo)
    (p : String) :
    (asyncEntry fs e).1.count (Event.removedDir p)
      = if e.disposer == none && (e.isDir && e.path == p) then 1 else 0 := by
  unfold asyncEntry
  cases hd : e.disposer with
  | some d2 => simp
  | none =>
    cases hr : (if e.isDir then fs.removeRec e.path else fs.unlinkFile e.path) with
    | ok u =>
      by_cases hb : e.isDir <;> by_cases h2 : e.path = p <;>
        simp [hb, h2, List.count_singleton, beq_iff_eq]
    | error err =>
      by_cases hb : e.isDir <;> by_cases h2 : e.path = p <;>
        simp [hb, h2, List.count_cons, beq_iff_eq, count_handleError_removedDir]

lemma asyncEntry_count_unlinked (fs : FsOracle) (e : TempFileInfo)
    (p : String) :
    (asyncEntry fs e).1.count (Event.unlinked p)
      = if e.disposer == none && (!e.isDir && e.path == p) then 1 else 0 := by
  unfold asyncEntry
  cases hd : e.disposer with
  | some d2 => simp
  | none =>
    cases hr : (if e.isDir then fs.removeRec e.path else fs.unlinkFile e.path) with
    | ok u =>
      by_cases hb : e.isDir <;> by_cases h2 : e.path = p <;>
        simp [hb, h2, List.count_singleton, beq_iff_eq]
    | error err =>
      by_cases hb : e.isDir <;> by_cases h2 : e.path = p <;>
        simp [hb, h2, List.count_cons, beq_iff_eq, count_handleError_unlinked]

lemma flatten_count_of_entry (fs : FsOracle)
    (cnt : List Event → Nat) (per : TempFileInfo → Nat)
    (hcnt0 : cnt [] = 0)
    (hcnta : ∀ l1 l2, cnt (l1 ++ l2) = cnt l1 + cnt l2)
    (hper : ∀ e, cnt (asyncEntry fs e).1 = per e) :
    ∀ l : List TempFileInfo,
      cnt ((l.map (asyncEntry fs)).map Prod.fst).flatten
        = (l.map per).sum := by
  intro l
  induction l with
  | nil => simpa using hcnt0
  | cons e rest ih =>
    simp only [List.map_cons, List.flatten_cons, List.sum_cons]
    rw [hcnta, hper, ih]

lemma sum_if_countP (pred : TempFileInfo → Bool) :
    ∀ l : List TempFileInfo,
      (l.map fun e => if pred e then 1 else 0).sum = l.countP pred := by
  intro l
  induction l with
  | nil => simp
  | cons e rest ih =>
    by_cases h : pred e <;> simp [List.countP_cons, h, ih] <;> omega

lemma isEmpty_false_of_ne_nil {α : Type} {l : List α} (h : l ≠ []) :
    l.isEmpty = false := by
  cases l with
  | nil => exact absurd rfl h
  | cons a t => rfl

lemma cleanup_fanout (fs : FsOracle) (selfId : Nat) (ms : ManagerState)
    (g : GlobalState) (hne : ms.tempFiles ≠ [])
    (hothers : (removeManager selfId g).tmpDirManagers ≠ []) :
    (cleanup fs selfId ms g).events
      = ((ms.tempFiles.map (asyncEntry fs)).map Prod.fst).flatten
    ∧ (cleanup fs selfId ms g).outcome
      = promiseAll ((ms.tempFiles.map (asyncEntry fs)).map Prod.snd) := by
  unfold cleanup
  simp [isEmpty_false_of_ne_nil hne, isEmpty_false_of_ne_nil hothers]

lemma disposalStart_mem_asyncEntry (fs : FsOracle) (e : TempFileInfo) :
    disposalStart e ∈ (asyncEntry fs e).1 := by
  unfold disposalStart asyncEntry
  cases hd : e.disposer with
  | some d => simp
  | none =>
    cases hr : (if e.isDir then fs.removeRec e.path else fs.unlinkFile e.path) with
    | ok u => by_cases hb : e.isDir <;> simp [hb]
    | error err => by_cases hb : e.isDir <;> simp [hb]

lemma asyncEntry_snd_of_none (fs : FsOracle) {e : TempFileInfo}
    (h : e.disposer = none) : (asyncEntry fs e).2 = Except.ok () := by
  unfold asyncEntry
  rw [h]
  cases hr : (if e.isDir then fs.removeRec e.path else fs.unlinkFile e.path) with
  | ok u => rfl
  | error err => rfl

lemma promiseAll_ok_of_all_none (fs : FsOracle) :
    ∀ l : List TempFileInfo, (∀ e ∈ l, e.disposer = none) →
      promiseAll ((l.map (asyncEntry fs)).map Prod.snd) = Except.ok () := by
  intro l
  induction l with
  | nil => intro _; rfl
  | cons e rest ih =>
    intro h
    simp only [List.map_cons]
    rw [asyncEntry_snd_of_none fs (h e (List.mem_cons_self _ _))]
    exact ih fun x hx => h x (List.mem_cons_of_mem _ hx)

/-- C2 as stated is false on the code: when the cleaning manager is the
last registry member, `cleanup` takes the `tmpDirManagers.size === 0`
branch (`main.ts:178-187`) and only removes the base directory — the
recorded entry's custom disposer (id 7) is never invoked (zero
invocations, not one). -/
theorem c2_counterexample_last_member_skips_disposer :
    (cleanup fsAllOk 0 msDisposer gSole).events.count
        (Event.disposerInvoked 7 (String.mk ['p'])) = 0
    ∧ (cleanup fsAllOk 0 msDisposer gSole).events
        = [Event.removedBase (String.mk ['b'])] := by
  constructor <;> rfl

/-- C2 (amended): when at least one other manager remains in the registry
after this one is deleted, `cleanup` disposes every recorded entry: for
every disposer id `d` and path `p`, the number of `d`-disposer invocations
at `p` equals the number of recorded entries carrying disposer `d` and
path `p` (so a uniquely recorded entry's disposer runs exactly once with
its path), and the removal primitives are attempted exactly on the
disposer-less entries, recursive removal for directories and unlink for
files — never additionally on an entry that has a disposer. When instead
the manager is the last registry member (and the base directory is
resolved), `cleanup` only removes the shared base directory and disposes
no entry individually. -/
theorem c2_amended_entry_disposal (fs : FsOracle) (selfId : Nat)
    (ms : ManagerState) (g : GlobalState) (hne : ms.tempFiles ≠ []) :
    ((removeManager selfId g).tmpDirManagers ≠ [] →
      ∀ d p,
      ((cleanup fs selfId ms g).events.count (Event.disposerInvoked d p)
        = ms.tempFiles.countP fun e => e.disposer == some d && e.path == p)
      ∧ ((cleanup fs selfId ms g).events.count (Event.removedDir p)
        = ms.tempFiles.countP fun e => e.disposer == none && (e.isDir && e.path == p))
      ∧ ((cleanup fs selfId ms g).events.count (Event.unlinked p)
        = ms.tempFiles.countP fun e => e.disposer == none && (!e.isDir && e.path == p)))
    ∧ (∀ d2, g.tmpDirManagers = [selfId] → g.tempBaseDir = some d2 →
        (cleanup fs selfId ms g).events = [Event.removedBase d2]) := by
  constructor
  · intro ho d p
    obtain ⟨hev, _⟩ := cleanup_fanout fs selfId ms g hne ho
    rw [hev]
    refine ⟨?_, ?_, ?_⟩
    · rw [flatten_count_of_entry fs _ _ (List.count_nil _)
        (fun l1 l2 => List.count_append _ l1 l2)
        (fun e => asyncEntry_count_disposer fs e d p) ms.tempFiles]
      exact sum_if_countP _ ms.tempFiles
    · rw [flatten_count_of_entry fs _ _ (List.count_nil _)
        (fun l1 l2 => List.count_append _ l1 l2)
        (fun e => asyncEntry_count_removedDir fs e p) ms.tempFiles]
      exact sum_if_countP _ ms.tempFiles
    · rw [flatten_count_of_entry fs _ _ (List.count_nil _)
        (fun l1 l2 => List.count_append _ l1 l2)
        (fun e => asyncEntry_count_unlinked fs e p) ms.tempFiles]
      exact sum_if_countP _ ms.tempFiles
  · intro d2 hsole hbase
    simp [cleanup, removeManager, hsole, hbase, isEmpty_false_of_ne_nil hne]

/-- Witness for the amended C2: manager 0 cleans up while manager 5 is
still registered; its single entry's disposer (id 7) is invoked exactly
once with the entry's path, and no removal primitive runs. -/
theorem c2_amended_entry_disposal_witness :
    ((cleanup fsAllOk 0 msDisposer gShared).events.count
        (Event.disposerInvoked 7 (String.mk ['p'])) = 1)
    ∧ (cleanup fsAllOk 0 msDisposer gShared).events.count
        (Event.unlinked (String.mk ['p'])) = 0 := by
  have h := (c2_amended_entry_disposal fsAllOk 0 msDisposer gShared
    (by decide)).1 (by decide) 7 (String.mk ['p'])
  exact ⟨by rw [h.1]; rfl, by rw [h.2.2]; rfl⟩

/-- C3 as stated is false on the code: in `cleanup`, a custom disposer's
result is returned into the `Promise.all` without a `.catch`
(`main.ts:190-192`), so a rejecting disposer makes the promise returned by
`cleanup()` reject (here with `EIO`), not resolve. -/
theorem c3_counterexample_disposer_rejects :
    (cleanup fsDisposerFails 0 msDisposer gShared).outcome
      = Except.error (FsErr.mk (String.mk ['E', 'I', 'O'])) := by
  rfl

/-- C3 (amended): `cleanupSync` never throws, whatever the filesystem
does. For `cleanup`, when other managers remain registered: default
removal failures are contained per entry — if no recorded entry has a
custom disposer, the returned promise resolves for every filesystem
behavior — and disposal of every recorded entry is started regardless of
any other entry's failure; only a rejecting custom disposer (returned
uncaught into the `Promise.all`) makes the returned promise reject. -/
theorem c3_amended_errors_contained (fs : FsOracle) (selfId : Nat)
    (ms : ManagerState) (g : GlobalState) :
    (∃ r, cleanupSync fs selfId ms g = Except.ok r)
    ∧ ((removeManager selfId g).tmpDirManagers ≠ [] →
        ((∀ e ∈ ms.tempFiles, e.disposer = none) →
          (cleanup fs selfId ms g).outcome = Except.ok ())
        ∧ ∀ e ∈ ms.tempFiles,
            disposalStart e ∈ (cleanup fs selfId ms g).events) := by
  constructor
  · obtain ⟨ms2, g2, evs, hok, _⟩ := cleanupSync_post fs selfId ms g
    exact ⟨(ms2, g2, evs), hok⟩
  · intro ho
    by_cases hne : ms.tempFiles = []
    · constructor
      · intro _
        unfold cleanup
        simp [hne]
      · intro e he
        rw [hne] at he
        exact absurd he (List.not_mem_nil e)
    · obtain ⟨hev, hout⟩ := cleanup_fanout fs selfId ms g hne ho
      constructor
      · intro hnone
        rw [hout]
        exact promiseAll_ok_of_all_none fs ms.tempFiles hnone
      · intro e he
        rw [hev]
        refine List.mem_flatten.mpr ⟨(asyncEntry fs e).1, ?_, ?_⟩
        · refine List.mem_map.mpr ⟨asyncEntry fs e, ?_, rfl⟩
          exact List.mem_map.mpr ⟨e, he, rfl⟩
        · exact disposalStart_mem_asyncEntry fs e

/-- Witness for the amended C3: with every removal primitive failing
(`EIO`) but no custom disposer, manager 0's `cleanup` (with manager 5
still registered) still resolves, and the unlink of its file entry was
attempted; its `cleanupSync` returns normally. -/
theorem c3_amended_errors_contained_witness :
    (cleanup fsRemovalFails 0 msPlainFile gShared).outcome = Except.ok ()
    ∧ Event.unlinked (String.mk ['p'])
        ∈ (cleanup fsRemovalFails 0 msPlainFile gShared).events := by
  have h := (c3_amended_errors_contained fsRemovalFails 0 msPlainFile
    gShared).2 (by decide)
  refine ⟨h.1 ?_, ?_⟩
  · intro e he
    have : e = TempFileInfo.mk false (String.mk ['p']) none := by
      simpa [msPlainFile] using he
    rw [this]
  · have h2 := h.2 (TempFileInfo.mk false (String.mk ['p']) none)
      (by simp [msPlainFile])
    simpa [disposalStart] using h2

lemma asyncExitTrace_start_lt {managers : List Nat} {dir : String}
    {i : Nat} {a : Nat}
    (h : (asyncExitTrace managers dir).get? i = some (ExitEvent.cStart a)) :
    i < managers.length := by
  by_contra hge
  push_neg at hge
  unfold asyncExitTrace at h
  by_cases h2 : i < (List.map ExitEvent.cStart managers
      ++ List.map ExitEvent.cEnd managers).length
  · rw [List.get?_append h2] at h
    rw [List.get?_append_right (by simpa using hge)] at h
    rw [List.get?_map] at h
    cases hm : managers.get? (i - (List.map ExitEvent.cStart managers).length) with
    | none => rw [hm] at h; simp at h
    | some m => rw [hm] at h; simp at h
  · push_neg at h2
    rw [List.get?_append_right h2] at h
    rcases hk : i - (List.map ExitEvent.cStart managers
        ++ List.map ExitEvent.cEnd managers).length with _ | _ | k <;>
      rw [hk] at h <;> simp [List.get?] at h

lemma asyncExitTrace_end_ge {managers : List Nat} {dir : String}
    {j : Nat} {b : Nat}
    (h : (asyncExitTrace managers dir).get? j = some (ExitEvent.cEnd b)) :
    managers.length ≤ j := by
  by_contra hlt
  push_neg at hlt
  unfold asyncExitTrace at h
  rw [List.get?_append (by simp; omega)] at h
  rw [List.get?_append (by simpa using hlt)] at h
  rw [List.get?_map] at h
  cases hm : managers.get? j with
  | none => rw [hm] at h; simp at h
  | some m => rw [hm] at h; simp at h

/-- C9 is false as stated: with two snapshotted managers, the exit hook's
`Promise.all(managers.map(it => it.cleanup()))` starts manager 1's cleanup
(trace position 1) strictly between manager 0's start (position 0) and
manager 0's completion (position 2), so the drain is not
one-manager-at-a-time. -/
theorem c9_counterexample_parallel_drain :
    ¬ SequentialDrain (asyncExitTrace [0, 1] (String.mk ['b'])) := by
  intro h
  have h01 := h 0 1 2 0 1 (by omega) (by omega) rfl rfl rfl
  exact absurd h01 (by decide)

/-- C9 (amended): on the asynchronous exit path the snapshotted managers'
cleanups are all started before any of them completes (concurrent, not
sequential, drain); after all completions the shared base directory is
removed, and the host callback comes last. -/
theorem c9_amended_concurrent_drain (managers : List Nat) (dir : String) :
    (∀ i j a b,
      (asyncExitTrace managers dir).get? i = some (ExitEvent.cStart a) →
      (asyncExitTrace managers dir).get? j = some (ExitEvent.cEnd b) →
      i < j)
    ∧ (asyncExitTrace managers dir).get? (2 * managers.length)
        = some (ExitEvent.removedBaseAtExit dir)
    ∧ (asyncExitTrace managers dir).get? (2 * managers.length + 1)
        = some ExitEvent.callbackInvoked
    ∧ (asyncExitTrace managers dir).length = 2 * managers.length + 2 := by
  have hlen : (List.map ExitEvent.cStart managers
      ++ List.map ExitEvent.cEnd managers).length = 2 * managers.length := by
    simp [two_mul]
  refine ⟨?_, ?_, ?_, ?_⟩
  · intro i j a b hi hj
    exact lt_of_lt_of_le (asyncExitTrace_start_lt hi) (asyncExitTrace_end_ge hj)
  · unfold asyncExitTrace
    rw [List.get?_append_right hlen.le]
    rw [hlen, Nat.sub_self]
    rfl
  · unfold asyncExitTrace
    rw [List.get?_append_right (by omega)]
    rw [hlen]
    have h1 : 2 * managers.length + 1 - 2 * managers.length = 1 := by omega
    rw [h1]
    rfl
  · unfold asyncExitTrace
    simp
    omega

/-- Witness for the amended C9 with one snapshotted manager (id 4): its
start precedes its completion, and the base-directory removal sits right
after both. -/
theorem c9_amended_concurrent_drain_witness :
    (0 : Nat) < 1
    ∧ (asyncExitTrace [4] (String.mk ['b'])).get? (2 * List.length [4])
        = some (ExitEvent.removedBaseAtExit (String.mk ['b'])) :=
  ⟨(c9_amended_concurrent_drain [4] (String.mk ['b'])).1 0 1 4 4 rfl rfl,
   (c9_amended_concurrent_drain [4] (String.mk ['b'])).2.1⟩

end TempFile
